import Mathlib

/-!
Verification development for the rslite synchronization engine
(`sync/sync.go`).  The Go code copies rows table-by-table from a source
SQLite database to a target database: it discovers tables, inspects each
table's columns and primary key, builds the select / insert-or-replace /
delete SQL statements, upserts every selected source row into the target
inside one transaction, optionally deletes target rows whose primary key
is absent from the source, and commits.

The embedding below is a shallow one: SQL statement builders are modelled
as the string-producing pure functions they are in the source, while the
effect of executing the statements against the SQLite engine is modelled
as pure state transformations on association lists keyed by the
primary-key value.  Environmental failures of the database driver
(a statement failing to prepare, a commit failing, ...) are modelled by an
explicit fault oracle so that the error paths of the code are part of the
model.
-/

namespace RSLite

/-- A SQLite storage value as it travels through the copy path.  The Go
code reads column values generically (`interface{}`); the claims only need
a concrete type with decidable equality, so integers, text and NULL are
modelled (REAL and BLOB values would behave identically for every claim). -/
inductive Val where
  | null : Val
  | int (i : Int) : Val
  | text (s : String) : Val
deriving DecidableEq

/-- A stored row: the values of all columns in schema order. -/
abbrev Row := List Val

/-- Mirrors the Go `Config` struct of `sync/sync.go`. -/
structure Config where
  Filter : String
  Value : String
  NoDelete : Bool
  Tables : List String
  SrcDbPath : String
  DstDbPath : String
deriving DecidableEq

/-- Mirrors the Go `Table` struct: name, column list, primary-key column. -/
structure Table where
  name : String
  columns : List String
  pkCol : String
deriving DecidableEq

/-- One result row of `PRAGMA table_info(<table>)`, exactly the columns the
Go code scans: `cid, name, type, notnull, dflt_value, pk`. -/
structure ColumnInfo where
  cid : Nat
  name : String
  type_ : String
  notnull : Nat
  dflt_value : Option String
  pk : Nat
deriving DecidableEq

/-- `getTableInfo` of `sync/sync.go`, given the `PRAGMA table_info` rows in
catalog order: every column name is appended to `columns`; every column
with `pk > 0` overwrites `pkCol`; an empty `pkCol` afterwards falls back to
`rowid`. -/
def getTableInfo (tableName : String) (cols : List ColumnInfo) : Table :=
  let t := cols.foldl
    (fun t c =>
      { t with
        columns := t.columns ++ [c.name]
        pkCol := if 0 < c.pk then c.name else t.pkCol })
    { name := tableName, columns := [], pkCol := "" }
  if t.pkCol = "" then { t with pkCol := "rowid" } else t

/-- The name of the last column flagged as part of the primary key, in
catalog order (`none` when no column is flagged).  This is what the
`pk > 0` loop of `getTableInfo` computes. -/
def lastFlaggedPk (cols : List ColumnInfo) : Option String :=
  cols.foldl (fun acc c => if 0 < c.pk then some c.name else acc) none

/-- The name of the first column flagged as part of the primary key.
Modelled from the spec: "the first column flagged as part of the primary
key becomes `primaryKeyColumn`" — stated for comparison with what
`getTableInfo` actually computes. -/
def firstFlaggedPk (cols : List ColumnInfo) : Option String :=
  (cols.find? (fun c => decide (0 < c.pk))).map (fun c => c.name)

/-- The column list of the built select/insert statements:
`cols := append([]string{table.pkCol}, table.columns...)`. -/
def selectCols (t : Table) : List String :=
  t.pkCol :: t.columns

/-- Maps the Go `switch cfg.Filter` of `buildSelectQuery` to a SQL
comparison operator (empty string when the filter name is unknown). -/
def opOfFilter (f : String) : String :=
  if f = "gt" then ">"
  else if f = "lt" then "<"
  else if f = "gte" then ">="
  else if f = "lte" then "<="
  else ""

/-- `buildSelectQuery` of `sync/sync.go`. -/
def buildSelectQuery (t : Table) (cfg : Config) : String :=
  let query := "SELECT " ++ String.intercalate ", " (selectCols t) ++ " FROM " ++ t.name
  if cfg.Filter != "" && cfg.Value != "" then
    let op := opOfFilter cfg.Filter
    if op != "" then query ++ " WHERE " ++ t.pkCol ++ " " ++ op ++ " ?"
    else query
  else query

/-- `buildInsertQuery` of `sync/sync.go`. -/
def buildInsertQuery (t : Table) : String :=
  "INSERT OR REPLACE INTO " ++ t.name ++ " (" ++
    String.intercalate ", " (selectCols t) ++ ") VALUES (" ++
    String.intercalate ", " ((selectCols t).map (fun _ => "?")) ++ ")"

/-- Whether the built select statement carries a `WHERE` clause (and hence
one bind placeholder): both filter fields non-empty and the filter name one
of `gt`, `lt`, `gte`, `lte`. -/
def hasFilterClause (cfg : Config) : Bool :=
  cfg.Filter != "" && cfg.Value != "" && opOfFilter cfg.Filter != ""

/-- A row of the source table as returned by the built select statement:
the primary-key value (selected first) and the values of all columns in
schema order. -/
structure SourceRow where
  key : Val
  cols : Row
deriving DecidableEq

/-- A source table at the semantic level: its name (from `sqlite_master`)
and its rows in the order the engine enumerates them. -/
structure SourceTable where
  name : String
  rows : List SourceRow
deriving DecidableEq

/-- The contents of one target table: an association list from primary-key
value to the stored row, in storage order. -/
abbrev TableState := List (Val × Row)

/-- Row lookup by primary-key value. -/
def lookup : TableState → Val → Option Row
  | [], _ => none
  | (k', v) :: rest, k => if k' = k then some v else lookup rest k

/-- Effect of `INSERT OR REPLACE` keyed on the primary-key value: replace
the existing row in place, or append a new one. -/
def upsert (k : Val) (v : Row) : TableState → TableState
  | [] => [(k, v)]
  | (k', v') :: rest => if k' = k then (k, v) :: rest else (k', v') :: upsert k v rest

/-- Upserting a list of selected source rows in order. -/
def upsertAll (sel : List SourceRow) (st : TableState) : TableState :=
  sel.foldl (fun st r => upsert r.key r.cols st) st

/-- Error taxonomy of one table's synchronization, one constructor per
fallible step of `syncTable`. -/
inductive TableErr where
  | beginErr
  | noTable
  | prepareErr
  | bindErr
  | selectErr
  | rowErr
  | srcIdsErr
  | deleteErr
  | commitErr
deriving DecidableEq

/-- Fault oracle: which database-driver calls of one `syncTable` run fail
for environmental reasons.  `insertFailAt = some i` makes the scan/insert
of the `i`-th selected row fail. -/
structure Faults where
  txBegin : Bool
  prepInsert : Bool
  prepDelete : Bool
  selectFail : Bool
  insertFailAt : Option Nat
  srcIdsFail : Bool
  deleteFail : Bool
  commitFail : Bool
deriving DecidableEq

/-- The fault-free environment. -/
def noFaults : Faults :=
  { txBegin := false, prepInsert := false, prepDelete := false
    selectFail := false, insertFailAt := none, srcIdsFail := false
    deleteFail := false, commitFail := false }

/-- Executing the built select statement against the source.  The driver
binds `cfg.Value` exactly when it is non-empty (`if cfg.Value != ""` in
`syncTable`); the statement has one placeholder exactly when
`hasFilterClause`.  A bind-argument count mismatch is an execution error
(the `database/sql` driver rejects surplus arguments).  `cmp` is the
engine's comparison of the key value against the bound text. -/
def selectRows (cmp : String → Val → String → Bool) (cfg : Config)
    (rows : List SourceRow) : Except TableErr (List SourceRow) :=
  if cfg.Value != "" then
    if hasFilterClause cfg then
      .ok (rows.filter (fun r => cmp (opOfFilter cfg.Filter) r.key cfg.Value))
    else .error .bindErr
  else .ok rows

/-- The scan-and-upsert loop of `syncTable` over the selected rows,
indexed so that the fault oracle can fail a specific row. -/
def upsertLoop (failAt : Option Nat) : Nat → List SourceRow → TableState →
    Except TableErr TableState
  | _, [], st => .ok st
  | i, r :: rest, st =>
    if failAt = some i then .error .rowErr
    else upsertLoop failAt (i + 1) rest (upsert r.key r.cols st)

/-- One concrete engine comparison, usable as the `cmp` argument.
Modelled from the spec: "numeric comparison when the key is numeric,
lexical when textual", with SQLite's storage-class order
(NULL, then numbers, then text) and a NULL key never matching. -/
def valLt : Val → Val → Bool
  | .null, .null => false
  | .null, _ => true
  | .int _, .null => false
  | .int i, .int j => decide (i < j)
  | .int _, .text _ => true
  | .text _, .null => false
  | .text _, .int _ => false
  | .text s, .text u => decide (s < u)

/-- Coercion of the bound text to the key's affinity before comparison.
Modelled from the spec: "the underlying engine's native type coercion". -/
def coerceBound (key : Val) (v : String) : Val :=
  match key with
  | .int _ =>
    match v.toInt? with
    | some j => .int j
    | none => .text v
  | _ => .text v

/-- The engine comparison used in witnesses. -/
def cmpSpec (op : String) (key : Val) (bound : String) : Bool :=
  match key with
  | .null => false
  | _ =>
    let b := coerceBound key bound
    if op = ">" then valLt b key
    else if op = "<" then valLt key b
    else if op = ">=" then !valLt key b
    else if op = "<=" then !valLt b key
    else false

/-- `syncTable` of `sync/sync.go` at the semantic level, for one table.
`rows` is the source table's row list, `st?` the target table's contents
(`none` when the target database has no table of that name, making the
statement preparation fail).  The pending transaction state is threaded
through; an error on any step discards it, only a successful final commit
publishes it. -/
def syncTable (cmp : String → Val → String → Bool) (f : Faults) (cfg : Config)
    (rows : List SourceRow) (st? : Option TableState) : Except TableErr TableState :=
  if f.txBegin then .error .beginErr else
  match st? with
  | none => .error .noTable
  | some st =>
    if f.prepInsert then .error .prepareErr else
    if f.prepDelete then .error .prepareErr else
    match selectRows cmp cfg rows with
    | .error e => .error e
    | .ok sel =>
      if f.selectFail then .error .selectErr else
      match upsertLoop f.insertFailAt 0 sel st with
      | .error e => .error e
      | .ok tx1 =>
        if cfg.NoDelete then
          if f.commitFail then .error .commitErr else .ok tx1
        else
          if f.srcIdsFail then .error .srcIdsErr else
          let srcKeys := rows.map (fun r => r.key)
          if srcKeys.isEmpty then
            if f.commitFail then .error .commitErr else .ok tx1
          else
            if f.deleteFail then .error .deleteErr else
            let tx2 := tx1.filter (fun e => decide (e.1 ∈ srcKeys))
            if f.commitFail then .error .commitErr else .ok tx2

/-- The target database: association list from table name to contents. -/
abbrev TargetDB := List (String × TableState)

/-- Target-table lookup by name. -/
def lookupTable : TargetDB → String → Option TableState
  | [], _ => none
  | (n, st) :: rest, name => if n = name then some st else lookupTable rest name

/-- Replace the contents of the (first) table of the given name. -/
def updateTable (name : String) (v : TableState) : TargetDB → TargetDB
  | [] => []
  | (n, st) :: rest =>
    if n = name then (name, v) :: rest else (n, st) :: updateTable name v rest

/-- A table-level error wrapped with the failing table's name, mirroring
`fmt.Errorf("syncing table %s: %w", table.name, err)` in `Sync`. -/
inductive SyncErr where
  | table (name : String) (e : TableErr)
deriving DecidableEq

/-- One table's synchronization acting on the whole target database. -/
def syncTableInDB (cmp : String → Val → String → Bool) (f : Faults) (cfg : Config)
    (t : SourceTable) (db : TargetDB) : Except TableErr TargetDB :=
  match syncTable cmp f cfg t.rows (lookupTable db t.name) with
  | .error e => .error e
  | .ok st' => .ok (updateTable t.name st' db)

/-- The table loop of `Sync`: tables in discovery order, first failure
aborts with the wrapped error, each success commits before the next table
starts.  `fb` assigns each table its fault oracle. -/
def runSyncTables (cmp : String → Val → String → Bool) (fb : String → Faults)
    (cfg : Config) : List SourceTable → TargetDB → TargetDB × Option SyncErr
  | [], db => (db, none)
  | t :: rest, db =>
    match syncTableInDB cmp (fb t.name) cfg t db with
    | .error e => (db, some (.table t.name e))
    | .ok db' => runSyncTables cmp fb cfg rest db'

/-- The allowlist restriction of `Sync`: when `cfg.Tables` is non-empty,
keep only the source tables whose name is in it (membership via the
`tableMap`), in discovery order. -/
def filterTables (cfg : Config) (tables : List SourceTable) : List SourceTable :=
  if cfg.Tables.isEmpty then tables
  else tables.filter (fun t => decide (t.name ∈ cfg.Tables))

/-- `Sync` of `sync/sync.go` at the semantic level: restrict the
discovered source tables by the allowlist, then run the table loop. -/
def Sync (cmp : String → Val → String → Bool) (fb : String → Faults)
    (cfg : Config) (src : List SourceTable) (db : TargetDB) :
    TargetDB × Option SyncErr :=
  runSyncTables cmp fb cfg (filterTables cfg src) db

/-- Data-level equality of two table-synchronization results: equal errors,
or success with pointwise-equal contents. -/
def ExceptStateEq : Except TableErr TableState → Except TableErr TableState → Prop
  | .ok s1, .ok s2 => ∀ k, lookup s1 k = lookup s2 k
  | .error e1, .error e2 => e1 = e2
  | _, _ => False

end RSLite

namespace RSLite

theorem upsertAll_nil (st : TableState) : upsertAll [] st = st := rfl

theorem upsertAll_cons (r : SourceRow) (rest : List SourceRow) (st : TableState) :
    upsertAll (r :: rest) st = upsertAll rest (upsert r.key r.cols st) := rfl

theorem lookup_upsert_self (k : Val) (v : Row) (st : TableState) :
    lookup (upsert k v st) k = some v := by
  induction st with
  | nil => simp [upsert, lookup]
  | cons hd tl ih =>
    obtain ⟨k', v'⟩ := hd
    by_cases h : k' = k
    · simp [upsert, h, lookup]
    · simp [upsert, h, lookup, ih]

theorem lookup_upsert_ne (k k' : Val) (v : Row) (st : TableState) (h : k ≠ k') :
    lookup (upsert k v st) k' = lookup st k' := by
  induction st with
  | nil => simp [upsert, lookup, h]
  | cons hd tl ih =>
    obtain ⟨k'', v''⟩ := hd
    by_cases h2 : k'' = k
    · subst h2
      simp [upsert, lookup, h]
    · simp only [upsert, if_neg h2]
      by_cases h3 : k'' = k'
      · simp [lookup, h3]
      · simp [lookup, h3, ih]

theorem upsert_eq_of_lookup (k : Val) (v : Row) (st : TableState)
    (h : lookup st k = some v) : upsert k v st = st := by
  induction st with
  | nil => simp [lookup] at h
  | cons hd tl ih =>
    obtain ⟨k', v'⟩ := hd
    by_cases h2 : k' = k
    · subst h2
      simp [lookup] at h
      simp [upsert, h]
    · simp [lookup, h2] at h
      simp [upsert, h2, ih h]

theorem lookup_filter (p : Val → Bool) (st : TableState) (k : Val) :
    lookup (st.filter (fun e => p e.1)) k = if p k then lookup st k else none := by
  induction st with
  | nil => simp [lookup]
  | cons hd tl ih =>
    obtain ⟨k', v'⟩ := hd
    by_cases hp : p k'
    · by_cases hk : k' = k
      · subst hk
        simp [List.filter, hp, lookup]
      · simp [List.filter, hp, lookup, hk, ih]
    · by_cases hk : k' = k
      · subst hk
        simp [List.filter, hp, lookup, ih]
      · simp [List.filter, hp, lookup, hk, ih]

theorem upsertLoop_ok (failAt : Option Nat) (sel : List SourceRow) :
    ∀ (i : Nat) (st tx : TableState), upsertLoop failAt i sel st = .ok tx →
      tx = upsertAll sel st := by
  induction sel with
  | nil =>
    intro i st tx h
    simp [upsertLoop] at h
    simp [upsertAll_nil, h]
  | cons r rest ih =>
    intro i st tx h
    by_cases hf : failAt = some i
    · simp [upsertLoop, hf] at h
    · simp only [upsertLoop, if_neg hf] at h
      rw [upsertAll_cons]
      exact ih (i + 1) _ tx h

theorem upsertLoop_none (sel : List SourceRow) :
    ∀ (i : Nat) (st : TableState), upsertLoop none i sel st = .ok (upsertAll sel st) := by
  induction sel with
  | nil => intro i st; simp [upsertLoop, upsertAll_nil]
  | cons r rest ih =>
    intro i st
    simp only [upsertLoop, upsertAll_cons]
    simpa using ih (i + 1) (upsert r.key r.cols st)

theorem lookup_upsertAll_not_mem (sel : List SourceRow) (k : Val) :
    ∀ (st : TableState), k ∉ sel.map (fun r => r.key) →
      lookup (upsertAll sel st) k = lookup st k := by
  induction sel with
  | nil => intro st _; rfl
  | cons r rest ih =>
    intro st h
    simp only [List.map_cons, List.mem_cons] at h
    push_neg at h
    rw [upsertAll_cons, ih _ h.2, lookup_upsert_ne _ _ _ _ (fun he => h.1 he.symm)]

theorem lookup_upsertAll_mem (sel : List SourceRow) (r : SourceRow)
    (hnd : (sel.map (fun r => r.key)).Nodup) (hr : r ∈ sel) :
    ∀ (st : TableState), lookup (upsertAll sel st) r.key = some r.cols := by
  induction sel with
  | nil => cases hr
  | cons a rest ih =>
    intro st
    simp only [List.map_cons, List.nodup_cons] at hnd
    rcases List.mem_cons.mp hr with h | h
    · subst h
      rw [upsertAll_cons, lookup_upsertAll_not_mem _ _ _ hnd.1, lookup_upsert_self]
    · rw [upsertAll_cons]
      exact ih hnd.2 h _

theorem lookup_upsertAll_isSome (sel : List SourceRow) (k : Val) :
    ∀ (st : TableState), (lookup st k).isSome → (lookup (upsertAll sel st) k).isSome := by
  induction sel with
  | nil => intro st h; exact h
  | cons r rest ih =>
    intro st h
    rw [upsertAll_cons]
    apply ih
    by_cases hk : r.key = k
    · subst hk
      rw [lookup_upsert_self]
      rfl
    · rw [lookup_upsert_ne _ _ _ _ hk]
      exact h

theorem upsertAll_eq_self (sel : List SourceRow) (st : TableState)
    (h : ∀ r ∈ sel, lookup st r.key = some r.cols) : upsertAll sel st = st := by
  induction sel with
  | nil => rfl
  | cons r rest ih =>
    rw [upsertAll_cons, upsert_eq_of_lookup _ _ _ (h r (List.mem_cons_self r rest))]
    exact ih (fun r' hr' => h r' (List.mem_cons_of_mem r hr'))

theorem lookupTable_update_self (db : TargetDB) (name : String) (v : TableState)
    (h : (lookupTable db name).isSome) :
    lookupTable (updateTable name v db) name = some v := by
  induction db with
  | nil => simp [lookupTable] at h
  | cons hd tl ih =>
    obtain ⟨n, st⟩ := hd
    by_cases h2 : n = name
    · simp [updateTable, h2, lookupTable]
    · simp only [lookupTable, if_neg h2] at h
      simp [updateTable, h2, lookupTable, ih h]

theorem lookupTable_update_ne (db : TargetDB) (name n : String) (v : TableState)
    (h : n ≠ name) : lookupTable (updateTable name v db) n = lookupTable db n := by
  induction db with
  | nil => simp [updateTable]
  | cons hd tl ih =>
    obtain ⟨n', st⟩ := hd
    by_cases h2 : n' = name
    · subst h2
      have hne : ¬ n' = n := fun he => h he.symm
      simp [updateTable, lookupTable, hne]
    · simp only [updateTable, if_neg h2]
      by_cases h3 : n' = n
      · simp [lookupTable, h3]
      · simp [lookupTable, h3, ih]

theorem updateTable_eq_of_lookup (db : TargetDB) (name : String) (v : TableState)
    (h : lookupTable db name = some v) : updateTable name v db = db := by
  induction db with
  | nil => simp [lookupTable] at h
  | cons hd tl ih =>
    obtain ⟨n, st⟩ := hd
    by_cases h2 : n = name
    · subst h2
      simp [lookupTable] at h
      simp [updateTable, h]
    · simp [lookupTable, h2] at h
      simp [updateTable, h2, ih h]

theorem lookupTable_runSyncTables (cmp : String → Val → String → Bool)
    (fb : String → Faults) (cfg : Config) (ts : List SourceTable) (name : String) :
    ∀ (db : TargetDB), name ∉ ts.map (fun t => t.name) →
      lookupTable (runSyncTables cmp fb cfg ts db).1 name = lookupTable db name := by
  induction ts with
  | nil => intro db _; rfl
  | cons t rest ih =>
    intro db h
    simp only [List.map_cons, List.mem_cons] at h
    push_neg at h
    cases hstep : syncTableInDB cmp (fb t.name) cfg t db with
    | error e => simp [runSyncTables, hstep]
    | ok db' =>
      simp only [runSyncTables, hstep]
      rw [ih _ h.2]
      cases hsync : syncTable cmp (fb t.name) cfg t.rows (lookupTable db t.name) with
      | error e => simp [syncTableInDB, hsync] at hstep
      | ok st' =>
        simp only [syncTableInDB, hsync] at hstep
        cases hstep
        exact lookupTable_update_ne _ _ _ _ h.1

end RSLite

namespace RSLite

/-- `syncTable` specialized to a target table that exists. -/
theorem syncTable_some (cmp : String → Val → String → Bool) (f : Faults)
    (cfg : Config) (rows : List SourceRow) (st : TableState) :
    syncTable cmp f cfg rows (some st) =
      (if f.txBegin then .error .beginErr else
       if f.prepInsert then .error .prepareErr else
       if f.prepDelete then .error .prepareErr else
       match selectRows cmp cfg rows with
       | .error e => .error e
       | .ok sel =>
         if f.selectFail then .error .selectErr else
         match upsertLoop f.insertFailAt 0 sel st with
         | .error e => .error e
         | .ok tx1 =>
           if cfg.NoDelete then
             if f.commitFail then .error .commitErr else .ok tx1
           else
             if f.srcIdsFail then .error .srcIdsErr else
             if (rows.map (fun r => r.key)).isEmpty then
               if f.commitFail then .error .commitErr else .ok tx1
             else
               if f.deleteFail then .error .deleteErr else
               if f.commitFail then .error .commitErr
               else .ok (tx1.filter (fun e => decide (e.1 ∈ rows.map (fun r => r.key))))) := rfl

/-- The deterministic state transformation a successful `syncTable` run
performs on the target table (upsert the selected rows; then, unless
deletion is suppressed or the source key list is empty, keep only rows
whose key is among the unfiltered source keys). -/
def applyTable (cmp : String → Val → String → Bool) (cfg : Config)
    (rows : List SourceRow) (st : TableState) : TableState :=
  match selectRows cmp cfg rows with
  | .error _ => st
  | .ok sel =>
    if cfg.NoDelete then upsertAll sel st
    else if (rows.map (fun r => r.key)).isEmpty then upsertAll sel st
    else (upsertAll sel st).filter (fun e => decide (e.1 ∈ rows.map (fun r => r.key)))

theorem syncTable_ok_elim (cmp : String → Val → String → Bool) (f : Faults)
    (cfg : Config) (rows : List SourceRow) (st st' : TableState)
    (h : syncTable cmp f cfg rows (some st) = .ok st') :
    ∃ sel, selectRows cmp cfg rows = .ok sel ∧ st' = applyTable cmp cfg rows st := by
  rw [syncTable_some] at h
  split at h
  · simp at h
  split at h
  · simp at h
  split at h
  · simp at h
  split at h
  · simp at h
  next sel hsel =>
    split at h
    · simp at h
    split at h
    · simp at h
    next tx1 hloop =>
      have htx := upsertLoop_ok _ _ _ _ _ hloop
      subst htx
      split at h
      next hnd =>
        split at h
        · simp at h
        · cases h
          exact ⟨sel, hsel, by simp [applyTable, hsel, hnd]⟩
      next hnd =>
        have hnd' : cfg.NoDelete = false := by simpa using hnd
        split at h
        · simp at h
        split at h
        next hemp =>
          split at h
          · simp at h
          · cases h
            exact ⟨sel, hsel, by simp [applyTable, hsel, hnd', hemp]⟩
        next hemp =>
          have hemp' : (rows.map (fun r => r.key)).isEmpty = false := by
            simpa using hemp
          split at h
          · simp at h
          split at h
          · simp at h
          cases h
          exact ⟨sel, hsel, by simp [applyTable, hsel, hnd', hemp']⟩

/-- In the fault-free environment `syncTable` fails exactly when the
select's bind-argument check fails, and otherwise computes `applyTable`. -/
theorem syncTable_noFaults (cmp : String → Val → String → Bool) (cfg : Config)
    (rows : List SourceRow) (st : TableState) :
    syncTable cmp noFaults cfg rows (some st) =
      match selectRows cmp cfg rows with
      | .error e => .error e
      | .ok _ => .ok (applyTable cmp cfg rows st) := by
  rw [syncTable_some]
  cases hsel : selectRows cmp cfg rows with
  | error e => simp [noFaults, hsel]
  | ok sel =>
    by_cases hnd : cfg.NoDelete
    · simp [noFaults, hsel, upsertLoop_none, applyTable, hnd]
    · by_cases hemp : rows = []
      · subst hemp
        simp [noFaults, hsel, upsertLoop_none, applyTable, hnd]
      · simp [noFaults, hsel, upsertLoop_none, applyTable, hnd, hemp]

/-- The selected rows are a sublist of the source rows (the filter only
removes rows). -/
theorem selectRows_ok_sublist (cmp : String → Val → String → Bool)
    (cfg : Config) (rows sel : List SourceRow)
    (h : selectRows cmp cfg rows = .ok sel) : sel.Sublist rows := by
  unfold selectRows at h
  split at h
  · split at h
    · cases h
      exact List.filter_sublist rows
    · simp at h
  · cases h
    exact List.Sublist.refl rows

theorem lookup_upsertAll_perm (sel₁ sel₂ : List SourceRow) (st : TableState)
    (hperm : sel₁.Perm sel₂) (hnd : (sel₁.map (fun r => r.key)).Nodup) (k : Val) :
    lookup (upsertAll sel₁ st) k = lookup (upsertAll sel₂ st) k := by
  have hnd₂ : (sel₂.map (fun r => r.key)).Nodup :=
    ((hperm.map (fun r => r.key)).nodup_iff).mp hnd
  by_cases hk : k ∈ sel₁.map (fun r => r.key)
  · obtain ⟨r, hr, hrk⟩ := List.mem_map.mp hk
    rw [← hrk, lookup_upsertAll_mem sel₁ r hnd hr,
      lookup_upsertAll_mem sel₂ r hnd₂ (hperm.mem_iff.mp hr)]
  · rw [lookup_upsertAll_not_mem _ _ _ hk,
      lookup_upsertAll_not_mem _ _ _
        (fun hm => hk (((hperm.map (fun r => r.key)).mem_iff).mpr hm))]

end RSLite

namespace RSLite

/-- Claim C1 (amended): for every table, when `suppressDelete=false` and the
source table has at least one row, after `syncTable` completes successfully
every primary-key value present in the target table is among the
(unfiltered) source primary-key values, regardless of any copy filter.
When the source table has zero rows, however, the batched delete is skipped
(`len(sourceIDs) > 0` fails) and the target table is left exactly as it
was, not emptied. -/
theorem syncTable_target_keys_subset_of_source
    (cmp : String → Val → String → Bool) (f : Faults) (cfg : Config)
    (rows : List SourceRow) (st st' : TableState)
    (hnd : cfg.NoDelete = false)
    (hok : syncTable cmp f cfg rows (some st) = .ok st') :
    (rows ≠ [] → ∀ k, (lookup st' k).isSome → k ∈ rows.map (fun r => r.key)) ∧
    (rows = [] → st' = st) := by
  obtain ⟨sel, hsel, hst⟩ := syncTable_ok_elim _ _ _ _ _ _ hok
  subst hst
  constructor
  · intro hne k hk
    have hemp : (rows.map (fun r => r.key)).isEmpty = false := by
      cases rows with
      | nil => exact absurd rfl hne
      | cons a as => rfl
    simp only [applyTable, hsel, hnd, Bool.false_eq_true, if_false, hemp] at hk
    rw [lookup_filter (fun x => decide (x ∈ rows.map (fun r => r.key)))
      (upsertAll sel st) k] at hk
    by_cases hm : k ∈ rows.map (fun r => r.key)
    · exact hm
    · simp [hm] at hk
  · intro he
    subst he
    have hsel0 : sel = [] := List.sublist_nil.mp (selectRows_ok_sublist _ _ _ _ hsel)
    subst hsel0
    simp [applyTable, hsel, hnd, upsertAll_nil]

/-- Claim C1, counterexample to the claim as stated: with
`suppressDelete=false` and an empty source table, `syncTable` succeeds and
the target keeps a primary-key value that does not exist in the source, so
the post-sync target keys are not a subset of the source keys and the
target is not emptied. -/
theorem c1_counterexample :
    ∃ st', syncTable cmpSpec noFaults
        { Filter := "", Value := "", NoDelete := false, Tables := [],
          SrcDbPath := "src.db", DstDbPath := "dst.db" }
        [] (some [(Val.int 1, [Val.int 1, Val.text "a"])]) = .ok st' ∧
      (lookup st' (Val.int 1)).isSome = true ∧
      Val.int 1 ∉ ([] : List SourceRow).map (fun r => r.key) := by
  refine ⟨[(Val.int 1, [Val.int 1, Val.text "a"])], rfl, rfl, by simp⟩

/-- Witness for the amended C1 theorem at a concrete input. -/
theorem c1_witness :
    Val.int 1 ∈ ([⟨Val.int 1, [Val.int 1]⟩] : List SourceRow).map (fun r => r.key) :=
  (syncTable_target_keys_subset_of_source cmpSpec noFaults
      { Filter := "", Value := "", NoDelete := false, Tables := [],
        SrcDbPath := "src.db", DstDbPath := "dst.db" }
      [⟨Val.int 1, [Val.int 1]⟩] [(Val.int 2, [Val.int 2])]
      [(Val.int 1, [Val.int 1])] rfl rfl).1 (by decide) (Val.int 1) (by decide)

/-- Claim C2 (amended): the filter clause is appended to the select exactly
when both `filterOperator` and `filterValue` are present (`filterOperator`
one of gt/lt/gte/lte).  When `filterValue` is empty, no clause and no bind
argument are used, all source rows are in scope and the sync succeeds.
When `filterValue` is non-empty but `filterOperator` is empty or invalid,
no clause is applied yet the value is still passed as a bind argument, so
the select fails with an argument-count error and the sync fails instead of
succeeding. -/
theorem filter_scope_semantics (t : Table) (cmp : String → Val → String → Bool)
    (cfg : Config) (rows : List SourceRow) (st : TableState) :
    (buildSelectQuery t cfg =
      if hasFilterClause cfg then
        "SELECT " ++ String.intercalate ", " (selectCols t) ++ " FROM " ++ t.name ++
          " WHERE " ++ t.pkCol ++ " " ++ opOfFilter cfg.Filter ++ " ?"
      else "SELECT " ++ String.intercalate ", " (selectCols t) ++ " FROM " ++ t.name) ∧
    (cfg.Value = "" →
      selectRows cmp cfg rows = .ok rows ∧
      syncTable cmp noFaults cfg rows (some st) = .ok (applyTable cmp cfg rows st)) ∧
    (cfg.Value ≠ "" → opOfFilter cfg.Filter = "" →
      syncTable cmp noFaults cfg rows (some st) = .error .bindErr) := by
  refine ⟨?_, ?_, ?_⟩
  · unfold buildSelectQuery hasFilterClause
    cases hf : (cfg.Filter != "") <;> cases hv : (cfg.Value != "") <;>
      cases hop : (opOfFilter cfg.Filter != "") <;> simp [hf, hv, hop]
  · intro hv
    have hv' : (cfg.Value != "") = false := by simp [hv]
    refine ⟨by simp [selectRows, hv'], ?_⟩
    rw [syncTable_noFaults]
    simp [selectRows, hv']
  · intro hv hop
    have hv' : (cfg.Value != "") = true := by simpa using hv
    have hfc : hasFilterClause cfg = false := by simp [hasFilterClause, hop]
    rw [syncTable_noFaults]
    simp [selectRows, hv', hfc]

/-- Claim C2, counterexample to the claim as stated: with an empty
`filterOperator` and a non-empty `filterValue` the sync does not succeed —
the bind value is passed to a select with no placeholder and the table sync
errors out. -/
theorem c2_counterexample :
    syncTable cmpSpec noFaults
      { Filter := "", Value := "1", NoDelete := true, Tables := [],
        SrcDbPath := "src.db", DstDbPath := "dst.db" }
      [⟨Val.int 2, [Val.int 2]⟩] (some [(Val.int 2, [Val.int 2])]) =
      .error .bindErr := rfl

/-- Witness for the amended C2 theorem at concrete inputs. -/
theorem c2_witness :
    selectRows cmpSpec
        { Filter := "gt", Value := "", NoDelete := false, Tables := [],
          SrcDbPath := "src.db", DstDbPath := "dst.db" }
        [⟨Val.int 1, [Val.int 1]⟩] = .ok [⟨Val.int 1, [Val.int 1]⟩] ∧
    syncTable cmpSpec noFaults
        { Filter := "xx", Value := "5", NoDelete := false, Tables := [],
          SrcDbPath := "src.db", DstDbPath := "dst.db" }
        [] (some []) = .error .bindErr :=
  ⟨((filter_scope_semantics
      { name := "products", columns := ["id", "name"], pkCol := "id" }
      cmpSpec
      { Filter := "gt", Value := "", NoDelete := false, Tables := [],
        SrcDbPath := "src.db", DstDbPath := "dst.db" }
      [⟨Val.int 1, [Val.int 1]⟩] []).2.1 rfl).1,
   (filter_scope_semantics
      { name := "products", columns := ["id", "name"], pkCol := "id" }
      cmpSpec
      { Filter := "xx", Value := "5", NoDelete := false, Tables := [],
        SrcDbPath := "src.db", DstDbPath := "dst.db" }
      [] []).2.2 (by decide) rfl⟩

/-- Claim C7: when `suppressDelete=true`, every target row whose primary
key is absent from the source table is present and unmodified after a
successful `syncTable`, and no row is deleted at all (every key present
before is present after). -/
theorem syncTable_nodelete_preserves
    (cmp : String → Val → String → Bool) (f : Faults) (cfg : Config)
    (rows : List SourceRow) (st st' : TableState)
    (hnd : cfg.NoDelete = true)
    (hok : syncTable cmp f cfg rows (some st) = .ok st') :
    (∀ k, k ∉ rows.map (fun r => r.key) → lookup st' k = lookup st k) ∧
    (∀ k, (lookup st k).isSome → (lookup st' k).isSome) := by
  obtain ⟨sel, hsel, hst⟩ := syncTable_ok_elim _ _ _ _ _ _ hok
  subst hst
  have happ : applyTable cmp cfg rows st = upsertAll sel st := by
    simp [applyTable, hsel, hnd]
  rw [happ]
  have hsub : (sel.map (fun r => r.key)).Sublist (rows.map (fun r => r.key)) :=
    (selectRows_ok_sublist _ _ _ _ hsel).map _
  constructor
  · intro k hk
    exact lookup_upsertAll_not_mem _ _ _ (fun hm => hk (hsub.subset hm))
  · intro k hk
    exact lookup_upsertAll_isSome _ _ _ hk

/-- Witness for the C7 theorem at a concrete input: the orphan target row
keyed 3 is untouched. -/
theorem c7_witness :
    lookup [(Val.int 3, [Val.int 3]), (Val.int 1, [Val.int 1])] (Val.int 3) =
      lookup [(Val.int 3, [Val.int 3])] (Val.int 3) :=
  (syncTable_nodelete_preserves cmpSpec noFaults
      { Filter := "", Value := "", NoDelete := true, Tables := [],
        SrcDbPath := "src.db", DstDbPath := "dst.db" }
      [⟨Val.int 1, [Val.int 1]⟩] [(Val.int 3, [Val.int 3])]
      [(Val.int 3, [Val.int 3]), (Val.int 1, [Val.int 1])] rfl rfl).1
    (Val.int 3) (by decide)

end RSLite

namespace RSLite

/-- `selectRows` in closed form: a valid filter selects the matching rows,
a dangling bind value is an error, no bind value selects everything. -/
theorem selectRows_eq (cmp : String → Val → String → Bool) (cfg : Config)
    (rows : List SourceRow) :
    selectRows cmp cfg rows =
      if hasFilterClause cfg then
        .ok (rows.filter (fun r => cmp (opOfFilter cfg.Filter) r.key cfg.Value))
      else if (cfg.Value != "") = true then .error .bindErr
      else .ok rows := by
  unfold selectRows hasFilterClause
  cases hf : (cfg.Filter != "") <;> cases hv : (cfg.Value != "") <;>
    cases hop : (opOfFilter cfg.Filter != "") <;> simp [hf, hv, hop]

theorem isEmpty_map_key_perm (rows₁ rows₂ : List SourceRow) (h : rows₁.Perm rows₂) :
    (rows₁.map (fun r => r.key)).isEmpty = (rows₂.map (fun r => r.key)).isEmpty := by
  cases rows₁ with
  | nil =>
    have h2 : rows₂ = [] := h.nil_eq.symm
    subst h2
    rfl
  | cons a as =>
    cases rows₂ with
    | nil => exact absurd h.eq_nil (by simp)
    | cons b bs => rfl

theorem lookup_syncBranch_perm (cfg : Config) (sel₁ sel₂ rows₁ rows₂ : List SourceRow)
    (st : TableState) (hs : sel₁.Perm sel₂)
    (hnds : (sel₁.map (fun r => r.key)).Nodup)
    (hemp : (rows₁.map (fun r => r.key)).isEmpty = (rows₂.map (fun r => r.key)).isEmpty)
    (hmem : ∀ x, x ∈ rows₁.map (fun r => r.key) ↔ x ∈ rows₂.map (fun r => r.key))
    (k : Val) :
    lookup (if cfg.NoDelete then upsertAll sel₁ st
      else if (rows₁.map (fun r => r.key)).isEmpty then upsertAll sel₁ st
      else (upsertAll sel₁ st).filter
        (fun e => decide (e.1 ∈ rows₁.map (fun r => r.key)))) k =
    lookup (if cfg.NoDelete then upsertAll sel₂ st
      else if (rows₂.map (fun r => r.key)).isEmpty then upsertAll sel₂ st
      else (upsertAll sel₂ st).filter
        (fun e => decide (e.1 ∈ rows₂.map (fun r => r.key)))) k := by
  have hu := lookup_upsertAll_perm sel₁ sel₂ st hs hnds
  by_cases hnd : cfg.NoDelete
  · simp [hnd, hu]
  · by_cases he : (rows₁.map (fun r => r.key)).isEmpty = true
    · have he₂ : (rows₂.map (fun r => r.key)).isEmpty = true := hemp ▸ he
      simp [hnd, he, he₂, hu]
    · have he₁ : (rows₁.map (fun r => r.key)).isEmpty = false := by
        cases hx : (rows₁.map (fun r => r.key)).isEmpty
        · rfl
        · exact absurd hx he
      have he₂ : (rows₂.map (fun r => r.key)).isEmpty = false := hemp ▸ he₁
      simp only [hnd, Bool.false_eq_true, if_false, he₁, he₂]
      rw [lookup_filter (fun x => decide (x ∈ rows₁.map (fun r => r.key)))
          (upsertAll sel₁ st) k,
        lookup_filter (fun x => decide (x ∈ rows₂.map (fun r => r.key)))
          (upsertAll sel₂ st) k]
      rw [decide_eq_decide.mpr (hmem k), hu k]

theorem applyTable_perm (cmp : String → Val → String → Bool) (cfg : Config)
    (rows₁ rows₂ : List SourceRow) (st : TableState) (hperm : rows₁.Perm rows₂)
    (hnd : (rows₁.map (fun r => r.key)).Nodup) (k : Val) :
    lookup (applyTable cmp cfg rows₁ st) k = lookup (applyTable cmp cfg rows₂ st) k := by
  have hkp : (rows₁.map (fun r => r.key)).Perm (rows₂.map (fun r => r.key)) :=
    hperm.map (fun r => r.key)
  have hemp := isEmpty_map_key_perm rows₁ rows₂ hperm
  have hmem : ∀ x, x ∈ rows₁.map (fun r => r.key) ↔ x ∈ rows₂.map (fun r => r.key) :=
    fun x => hkp.mem_iff
  unfold applyTable
  rw [selectRows_eq, selectRows_eq]
  by_cases hfc : hasFilterClause cfg = true
  · simp only [hfc, if_true]
    have hps : (rows₁.filter
        (fun r => cmp (opOfFilter cfg.Filter) r.key cfg.Value)).Perm
        (rows₂.filter (fun r => cmp (opOfFilter cfg.Filter) r.key cfg.Value)) :=
      hperm.filter _
    have hnds : ((rows₁.filter
        (fun r => cmp (opOfFilter cfg.Filter) r.key cfg.Value)).map
          (fun r => r.key)).Nodup :=
      hnd.sublist ((rows₁.filter_sublist).map (fun r => r.key))
    exact lookup_syncBranch_perm cfg _ _ rows₁ rows₂ st hps hnds hemp hmem k
  · by_cases hv : (cfg.Value != "") = true
    · simp [hfc, hv]
    · simp only [hfc, Bool.false_eq_true, if_false, hv]
      exact lookup_syncBranch_perm cfg rows₁ rows₂ rows₁ rows₂ st hperm hnd hemp hmem k

/-- Claim C10: `syncTable` is deterministic at the data level — it is a
pure function of the source rows, the initial target contents and the
configuration, and the final target contents do not depend on the order in
which the underlying queries enumerate the source rows (each primary key
is upserted at most once per run and orphan deletion is set-membership
based). -/
theorem syncTable_order_independent (cmp : String → Val → String → Bool)
    (cfg : Config) (st : TableState) (rows₁ rows₂ : List SourceRow)
    (hperm : rows₁.Perm rows₂)
    (hnd : (rows₁.map (fun r => r.key)).Nodup) :
    ExceptStateEq (syncTable cmp noFaults cfg rows₁ (some st))
      (syncTable cmp noFaults cfg rows₂ (some st)) := by
  rw [syncTable_noFaults, syncTable_noFaults, selectRows_eq, selectRows_eq]
  by_cases hfc : hasFilterClause cfg = true
  · simp only [hfc, if_true]
    exact fun k => applyTable_perm cmp cfg rows₁ rows₂ st hperm hnd k
  · by_cases hv : (cfg.Value != "") = true
    · simp only [hfc, Bool.false_eq_true, if_false, hv, if_true]
      rfl
    · simp only [hfc, Bool.false_eq_true, if_false, hv]
      exact fun k => applyTable_perm cmp cfg rows₁ rows₂ st hperm hnd k

/-- Witness for the C10 theorem: the two enumeration orders of a
two-row source table give data-level equal sync results. -/
theorem c10_witness :
    ExceptStateEq
      (syncTable cmpSpec noFaults
        { Filter := "", Value := "", NoDelete := false, Tables := [],
          SrcDbPath := "src.db", DstDbPath := "dst.db" }
        [⟨Val.int 1, [Val.int 1]⟩, ⟨Val.int 2, [Val.int 2]⟩]
        (some [(Val.int 3, [Val.int 3])]))
      (syncTable cmpSpec noFaults
        { Filter := "", Value := "", NoDelete := false, Tables := [],
          SrcDbPath := "src.db", DstDbPath := "dst.db" }
        [⟨Val.int 2, [Val.int 2]⟩, ⟨Val.int 1, [Val.int 1]⟩]
        (some [(Val.int 3, [Val.int 3])])) :=
  syncTable_order_independent cmpSpec
    { Filter := "", Value := "", NoDelete := false, Tables := [],
      SrcDbPath := "src.db", DstDbPath := "dst.db" }
    [(Val.int 3, [Val.int 3])]
    [⟨Val.int 1, [Val.int 1]⟩, ⟨Val.int 2, [Val.int 2]⟩]
    [⟨Val.int 2, [Val.int 2]⟩, ⟨Val.int 1, [Val.int 1]⟩]
    (by decide) (by decide)

end RSLite

namespace RSLite

/-- The string accumulator of the `pk > 0` loop. -/
def pkFold (cols : List ColumnInfo) (s : String) : String :=
  cols.foldl (fun s c => if 0 < c.pk then c.name else s) s

theorem getTableInfo_fold_spec (cols : List ColumnInfo) :
    ∀ t0 : Table,
      cols.foldl
        (fun t c =>
          { t with
            columns := t.columns ++ [c.name]
            pkCol := if 0 < c.pk then c.name else t.pkCol }) t0 =
      { name := t0.name, columns := t0.columns ++ cols.map (fun c => c.name),
        pkCol := pkFold cols t0.pkCol } := by
  induction cols with
  | nil => intro t0; simp [pkFold]
  | cons c cs ih =>
    intro t0
    simp only [List.foldl_cons, List.map_cons]
    rw [ih]
    simp [pkFold]

theorem optPkFold_getD (cols : List ColumnInfo) :
    ∀ (a : Option String) (s : String),
      (cols.foldl (fun acc c => if 0 < c.pk then some c.name else acc) a).getD s =
        pkFold cols (a.getD s) := by
  induction cols with
  | nil => intro a s; rfl
  | cons c cs ih =>
    intro a s
    by_cases h : 0 < c.pk
    · simp [pkFold, h, List.foldl_cons]
      simpa [pkFold] using ih (some c.name) s
    · simp [pkFold, h, List.foldl_cons]
      simpa [pkFold] using ih a s

theorem pkFold_eq_lastFlagged (cols : List ColumnInfo) (s : String) :
    pkFold cols s = (lastFlaggedPk cols).getD s :=
  (optPkFold_getD cols none s).symm

theorem optPkFold_spec (cols : List ColumnInfo) :
    ∀ (a : Option String),
      (∀ s, cols.foldl (fun acc c => if 0 < c.pk then some c.name else acc) a = some s →
        a = some s ∨ ∃ c ∈ cols, c.name = s ∧ 0 < c.pk) ∧
      (cols.foldl (fun acc c => if 0 < c.pk then some c.name else acc) a = none →
        a = none ∧ ∀ c ∈ cols, ¬ 0 < c.pk) := by
  induction cols with
  | nil =>
    intro a
    exact ⟨fun s h => Or.inl h, fun h => ⟨h, by simp⟩⟩
  | cons c cs ih =>
    intro a
    by_cases h : 0 < c.pk
    · constructor
      · intro s hs
        simp only [List.foldl_cons, if_pos h] at hs
        right
        rcases (ih (some c.name)).1 s hs with h1 | h1
        · exact ⟨c, List.mem_cons_self c cs, Option.some_injective _ h1, h⟩
        · obtain ⟨c', hc', hn', hp'⟩ := h1
          exact ⟨c', List.mem_cons_of_mem _ hc', hn', hp'⟩
      · intro hs
        simp only [List.foldl_cons, if_pos h] at hs
        exact absurd ((ih (some c.name)).2 hs).1 (by simp)
    · constructor
      · intro s hs
        simp only [List.foldl_cons, if_neg h] at hs
        rcases (ih a).1 s hs with h1 | h1
        · exact Or.inl h1
        · right
          obtain ⟨c', hc', hn', hp'⟩ := h1
          exact ⟨c', List.mem_cons_of_mem _ hc', hn', hp'⟩
      · intro hs
        simp only [List.foldl_cons, if_neg h] at hs
        obtain ⟨ha, hall⟩ := (ih a).2 hs
        refine ⟨ha, ?_⟩
        intro c' hc'
        rcases List.mem_cons.mp hc' with h2 | h2
        · subst h2; exact h
        · exact hall c' h2

theorem lastFlaggedPk_some_mem (cols : List ColumnInfo) (s : String)
    (h : lastFlaggedPk cols = some s) : ∃ c ∈ cols, c.name = s ∧ 0 < c.pk := by
  rcases (optPkFold_spec cols none).1 s h with h1 | h1
  · exact absurd h1 (by simp)
  · exact h1

theorem lastFlaggedPk_none_unflagged (cols : List ColumnInfo)
    (h : lastFlaggedPk cols = none) : ∀ c ∈ cols, ¬ 0 < c.pk :=
  ((optPkFold_spec cols none).2 h).2

/-- `getTableInfo` in closed form. -/
theorem getTableInfo_eq (tableName : String) (cols : List ColumnInfo) :
    getTableInfo tableName cols =
      if pkFold cols "" = "" then
        { name := tableName, columns := cols.map (fun c => c.name), pkCol := "rowid" }
      else
        { name := tableName, columns := cols.map (fun c => c.name),
          pkCol := pkFold cols "" } := by
  unfold getTableInfo
  rw [getTableInfo_fold_spec]
  by_cases h : pkFold cols "" = ""
  · simp [h]
  · simp [h]

/-- Claim C3 (amended): for every table whose columns have non-empty names
(always the case in SQLite), the descriptor built by `getTableInfo` has as
`pkCol` the LAST column flagged as part of the primary key in catalog
order — not the first — and falls back to the implicit `rowid` column when
no column is flagged; in particular `pkCol` is never empty. -/
theorem getTableInfo_pkCol_last_flagged (tableName : String)
    (cols : List ColumnInfo) (hn : ∀ c ∈ cols, c.name ≠ "") :
    (getTableInfo tableName cols).pkCol = (lastFlaggedPk cols).getD "rowid" ∧
    (getTableInfo tableName cols).pkCol ≠ "" := by
  rw [getTableInfo_eq]
  cases hl : lastFlaggedPk cols with
  | none =>
    have hf : pkFold cols "" = "" := by rw [pkFold_eq_lastFlagged, hl]; rfl
    simp [hf]
  | some s =>
    have hf : pkFold cols "" = s := by rw [pkFold_eq_lastFlagged, hl]; rfl
    obtain ⟨c, hc, hcn, _⟩ := lastFlaggedPk_some_mem cols s hl
    have hs : s ≠ "" := hcn ▸ hn c hc
    simp [hf, hs]

/-- Claim C3, counterexample to the claim as stated: with a two-column
primary key (both columns flagged), `getTableInfo` keeps the LAST flagged
column, while the claim says the first flagged column becomes the primary
key column. -/
theorem c3_counterexample :
    (getTableInfo "t"
      [⟨0, "a", "INTEGER", 0, none, 1⟩, ⟨1, "b", "INTEGER", 0, none, 2⟩]).pkCol = "b" ∧
    firstFlaggedPk
      [⟨0, "a", "INTEGER", 0, none, 1⟩, ⟨1, "b", "INTEGER", 0, none, 2⟩] = some "a" ∧
    ("b" : String) ≠ "a" := ⟨rfl, rfl, by decide⟩

/-- Witness for the amended C3 theorem at a concrete input. -/
theorem c3_witness :
    (getTableInfo "t"
      [⟨0, "a", "INTEGER", 0, none, 1⟩, ⟨1, "b", "INTEGER", 0, none, 2⟩]).pkCol =
      (lastFlaggedPk
        [⟨0, "a", "INTEGER", 0, none, 1⟩, ⟨1, "b", "INTEGER", 0, none, 2⟩]).getD "rowid" :=
  (getTableInfo_pkCol_last_flagged "t"
    [⟨0, "a", "INTEGER", 0, none, 1⟩, ⟨1, "b", "INTEGER", 0, none, 2⟩] (by decide)).1

/-- Claim C4 (amended): the descriptor's `columns` field holds ALL column
names in schema order (the key column included — not only the non-key
columns), and the built select's column list is `pkCol` followed by all
columns; consequently, whenever some column is flagged as part of the
primary key (column names non-empty), the key column appears at least
twice in the select list rather than exactly once. -/
theorem getTableInfo_columns_select_list (tableName : String)
    (cols : List ColumnInfo) :
    (getTableInfo tableName cols).columns = cols.map (fun c => c.name) ∧
    selectCols (getTableInfo tableName cols) =
      (getTableInfo tableName cols).pkCol :: cols.map (fun c => c.name) ∧
    ((∀ c ∈ cols, c.name ≠ "") → (∃ c ∈ cols, 0 < c.pk) →
      2 ≤ (selectCols (getTableInfo tableName cols)).count
            (getTableInfo tableName cols).pkCol) := by
  have hcolumns : (getTableInfo tableName cols).columns = cols.map (fun c => c.name) := by
    rw [getTableInfo_eq]
    split <;> rfl
  refine ⟨hcolumns, ?_, ?_⟩
  · rw [selectCols, hcolumns]
  · intro hn hex
    obtain ⟨c, hc, hpk⟩ := hex
    cases hl : lastFlaggedPk cols with
    | none => exact absurd hpk (lastFlaggedPk_none_unflagged cols hl c hc)
    | some s =>
      obtain ⟨c', hc', hcn', _⟩ := lastFlaggedPk_some_mem cols s hl
      have hs : s ≠ "" := hcn' ▸ hn c' hc'
      have hf : pkFold cols "" = s := by rw [pkFold_eq_lastFlagged, hl]; rfl
      have hpkcol : (getTableInfo tableName cols).pkCol = s := by
        rw [getTableInfo_eq]
        simp [hf, hs]
      have hmem : s ∈ cols.map (fun c => c.name) :=
        List.mem_map.mpr ⟨c', hc', hcn'⟩
      rw [selectCols, hcolumns, hpkcol, List.count_cons_self]
      have : 0 < (cols.map (fun c => c.name)).count s := List.count_pos_iff.mpr hmem
      omega

/-- Claim C4, counterexample to the claim as stated: for a table with a
declared primary key `id` and one other column `name`, the descriptor's
`columns` field is not the non-key column list, and the select column list
contains the key column twice rather than exactly once. -/
theorem c4_counterexample :
    (getTableInfo "products"
      [⟨0, "id", "INTEGER", 0, none, 1⟩, ⟨1, "name", "TEXT", 0, none, 0⟩]).columns ≠
      ["name"] ∧
    (selectCols (getTableInfo "products"
      [⟨0, "id", "INTEGER", 0, none, 1⟩, ⟨1, "name", "TEXT", 0, none, 0⟩])).count "id" =
      2 := ⟨by decide, by decide⟩

/-- Witness for the amended C4 theorem at a concrete input. -/
theorem c4_witness :
    2 ≤ (selectCols (getTableInfo "products"
        [⟨0, "id", "INTEGER", 0, none, 1⟩, ⟨1, "name", "TEXT", 0, none, 0⟩])).count
      (getTableInfo "products"
        [⟨0, "id", "INTEGER", 0, none, 1⟩, ⟨1, "name", "TEXT", 0, none, 0⟩]).pkCol :=
  (getTableInfo_columns_select_list "products"
    [⟨0, "id", "INTEGER", 0, none, 1⟩, ⟨1, "name", "TEXT", 0, none, 0⟩]).2.2
    (by decide) ⟨⟨0, "id", "INTEGER", 0, none, 1⟩, by decide, by decide⟩

end RSLite

namespace RSLite

/-- A fault oracle in which only the final commit fails. -/
def commitFaults : Faults :=
  { txBegin := false, prepInsert := false, prepDelete := false
    selectFail := false, insertFailAt := none, srcIdsFail := false
    deleteFail := false, commitFail := true }

theorem runSyncTables_prefix_none (cmp : String → Val → String → Bool)
    (fb : String → Faults) (cfg : Config) (pre : List SourceTable) :
    ∀ (db db1 : TargetDB), runSyncTables cmp fb cfg pre db = (db1, none) →
      ∀ (rest : List SourceTable),
        runSyncTables cmp fb cfg (pre ++ rest) db =
          runSyncTables cmp fb cfg rest db1 := by
  induction pre with
  | nil =>
    intro db db1 hpre rest
    simp only [runSyncTables] at hpre
    have hdb : db = db1 := congrArg Prod.fst hpre
    subst hdb
    rfl
  | cons p pre' ih =>
    intro db db1 hpre rest
    simp only [runSyncTables, List.cons_append] at hpre ⊢
    cases hstep : syncTableInDB cmp (fb p.name) cfg p db with
    | error e =>
      simp only [hstep] at hpre
      simp at hpre
    | ok db' =>
      simp only [hstep] at hpre ⊢
      exact ih db' db1 hpre rest

/-- Claim C9: `Sync` processes the retained tables sequentially in
discovery order; the first table-level failure aborts the run immediately
with the error wrapped with the failing table's name, the remaining tables
are not attempted, and the tables committed before the failure remain
committed in the target. -/
theorem sync_first_failure_aborts (cmp : String → Val → String → Bool)
    (fb : String → Faults) (cfg : Config) (pre : List SourceTable)
    (t : SourceTable) (rest : List SourceTable) (db db1 : TargetDB) (e : TableErr)
    (hpre : runSyncTables cmp fb cfg pre db = (db1, none))
    (hfail : syncTableInDB cmp (fb t.name) cfg t db1 = .error e) :
    runSyncTables cmp fb cfg (pre ++ t :: rest) db =
      (db1, some (.table t.name e)) := by
  rw [runSyncTables_prefix_none cmp fb cfg pre db db1 hpre (t :: rest)]
  simp [runSyncTables, hfail]

/-- Witness for the C9 theorem: with two tables and a commit fault injected
only for `orders`, the run commits `users`, aborts at `orders` with the
wrapped error, and leaves the `orders` table untouched. -/
theorem c9_witness :
    runSyncTables cmpSpec
      (fun n => if n = "orders" then commitFaults else noFaults)
      { Filter := "", Value := "", NoDelete := false, Tables := [],
        SrcDbPath := "src.db", DstDbPath := "dst.db" }
      [⟨"users", [⟨Val.int 1, [Val.int 1]⟩]⟩, ⟨"orders", []⟩]
      [("users", []), ("orders", [(Val.int 9, [Val.int 9])])] =
      ([("users", [(Val.int 1, [Val.int 1])]),
        ("orders", [(Val.int 9, [Val.int 9])])],
       some (.table "orders" .commitErr)) :=
  sync_first_failure_aborts cmpSpec
    (fun n => if n = "orders" then commitFaults else noFaults)
    { Filter := "", Value := "", NoDelete := false, Tables := [],
      SrcDbPath := "src.db", DstDbPath := "dst.db" }
    [⟨"users", [⟨Val.int 1, [Val.int 1]⟩]⟩] ⟨"orders", []⟩ []
    [("users", []), ("orders", [(Val.int 9, [Val.int 9])])]
    [("users", [(Val.int 1, [Val.int 1])]), ("orders", [(Val.int 9, [Val.int 9])])]
    .commitErr rfl rfl

/-- Claim C5: per-table transactional atomicity — whenever the table loop
of `Sync` ends in an error, the returned target database is exactly the
database as committed before the failing table's synchronization began:
the failing table's open transaction is rolled back on every exit path and
nothing partial is committed for it. -/
theorem runSyncTables_error_inversion (cmp : String → Val → String → Bool)
    (fb : String → Faults) (cfg : Config) (ts : List SourceTable) :
    ∀ (db db' : TargetDB) (err : SyncErr),
      runSyncTables cmp fb cfg ts db = (db', some err) →
      ∃ pre t rest db1 e,
        ts = pre ++ t :: rest ∧ err = .table t.name e ∧
        runSyncTables cmp fb cfg pre db = (db1, none) ∧
        syncTableInDB cmp (fb t.name) cfg t db1 = .error e ∧
        db' = db1 := by
  induction ts with
  | nil =>
    intro db db' err h
    simp [runSyncTables] at h
  | cons t rest ih =>
    intro db db' err h
    cases hstep : syncTableInDB cmp (fb t.name) cfg t db with
    | error e =>
      simp only [runSyncTables, hstep] at h
      have h1 : db = db' := congrArg Prod.fst h
      have h2 : some (SyncErr.table t.name e) = some err := congrArg Prod.snd h
      refine ⟨[], t, rest, db, e, rfl, (Option.some_injective _ h2).symm, rfl,
        hstep, h1.symm⟩
    | ok db2 =>
      simp only [runSyncTables, hstep] at h
      obtain ⟨pre, t', rest', db1, e, hts, herr, hpre, hfail, hdb⟩ := ih db2 db' err h
      refine ⟨t :: pre, t', rest', db1, e, by rw [hts]; rfl, herr, ?_, hfail, hdb⟩
      simp only [runSyncTables, hstep]
      exact hpre

/-- Witness for the C5 theorem: a single-table run whose commit fails
returns the untouched initial target database. -/
theorem c5_witness :
    ∃ pre t rest db1 e,
      ([⟨"orders", []⟩] : List SourceTable) = pre ++ t :: rest ∧
      SyncErr.table "orders" .commitErr = SyncErr.table t.name e ∧
      runSyncTables cmpSpec (fun _ => commitFaults)
        { Filter := "", Value := "", NoDelete := false, Tables := [],
          SrcDbPath := "src.db", DstDbPath := "dst.db" }
        pre [("orders", [(Val.int 9, [Val.int 9])])] = (db1, none) ∧
      syncTableInDB cmpSpec ((fun _ => commitFaults) t.name)
        { Filter := "", Value := "", NoDelete := false, Tables := [],
          SrcDbPath := "src.db", DstDbPath := "dst.db" }
        t db1 = .error e ∧
      [("orders", [(Val.int 9, [Val.int 9])])] = db1 :=
  runSyncTables_error_inversion cmpSpec (fun _ => commitFaults)
    { Filter := "", Value := "", NoDelete := false, Tables := [],
      SrcDbPath := "src.db", DstDbPath := "dst.db" }
    [⟨"orders", []⟩]
    [("orders", [(Val.int 9, [Val.int 9])])]
    [("orders", [(Val.int 9, [Val.int 9])])]
    (.table "orders" .commitErr) rfl

end RSLite

namespace RSLite

theorem syncTable_tables_irrelevant (cmp : String → Val → String → Bool)
    (f : Faults) (cfg : Config) (T : List String) (rows : List SourceRow)
    (st? : Option TableState) :
    syncTable cmp f { cfg with Tables := T } rows st? =
      syncTable cmp f cfg rows st? := by
  cases cfg
  rfl

theorem runSyncTables_tables_irrelevant (cmp : String → Val → String → Bool)
    (fb : String → Faults) (cfg : Config) (T : List String)
    (ts : List SourceTable) :
    ∀ db, runSyncTables cmp fb { cfg with Tables := T } ts db =
      runSyncTables cmp fb cfg ts db := by
  induction ts with
  | nil => intro db; rfl
  | cons t rest ih =>
    intro db
    cases hstep : syncTable cmp (fb t.name) cfg t.rows (lookupTable db t.name) with
    | error e =>
      simp [runSyncTables, syncTableInDB, syncTable_tables_irrelevant, hstep]
    | ok st' =>
      simp [runSyncTables, syncTableInDB, syncTable_tables_irrelevant, hstep, ih]

/-- Claim C8: when the allowlist `cfg.Tables` is non-empty, every target
table whose name is not in the allowlist is unchanged by `Sync`, and
allowlist names that match no source table are silently ignored — adding
such a name changes nothing about the run (in particular it is not an
error). -/
theorem sync_allowlist_isolation (cmp : String → Val → String → Bool)
    (fb : String → Faults) (cfg : Config) (src : List SourceTable)
    (db : TargetDB) (hne : cfg.Tables ≠ []) :
    (∀ name, name ∉ cfg.Tables →
      lookupTable (Sync cmp fb cfg src db).1 name = lookupTable db name) ∧
    (∀ x, x ∉ src.map (fun t => t.name) →
      Sync cmp fb { cfg with Tables := x :: cfg.Tables } src db =
        Sync cmp fb cfg src db) := by
  have hemp : cfg.Tables.isEmpty = false := by
    cases hT : cfg.Tables with
    | nil => exact absurd hT hne
    | cons a as => rfl
  constructor
  · intro name hname
    unfold Sync
    apply lookupTable_runSyncTables
    intro hmem
    obtain ⟨t, ht, hteq⟩ := List.mem_map.mp hmem
    unfold filterTables at ht
    rw [hemp] at ht
    simp only [Bool.false_eq_true, if_false] at ht
    have hmem2 : t.name ∈ cfg.Tables := of_decide_eq_true ((List.mem_filter.mp ht).2)
    exact hname (hteq ▸ hmem2)
  · intro x hx
    unfold Sync
    have hfeq : filterTables { cfg with Tables := x :: cfg.Tables } src =
        filterTables cfg src := by
      unfold filterTables
      simp only [hemp, Bool.false_eq_true, if_false, List.isEmpty_cons]
      apply List.filter_congr
      intro t ht
      have htn : t.name ≠ x := by
        intro he
        exact hx (he ▸ List.mem_map.mpr ⟨t, ht, rfl⟩)
      simp [List.mem_cons, htn]
    rw [hfeq]
    exact runSyncTables_tables_irrelevant cmp fb cfg (x :: cfg.Tables)
      (filterTables cfg src) db

/-- Witness for the C8 theorem: with allowlist `["users"]`, the `orders`
table is untouched and adding the unmatched name `ghost` changes nothing. -/
theorem c8_witness :
    lookupTable
        (Sync cmpSpec (fun _ => noFaults)
          { Filter := "", Value := "", NoDelete := false, Tables := ["users"],
            SrcDbPath := "src.db", DstDbPath := "dst.db" }
          [⟨"users", [⟨Val.int 1, [Val.int 1]⟩]⟩, ⟨"orders", [⟨Val.int 7, [Val.int 7]⟩]⟩]
          [("users", []), ("orders", [(Val.int 9, [Val.int 9])])]).1
        "orders" =
      lookupTable [("users", []), ("orders", [(Val.int 9, [Val.int 9])])] "orders" ∧
    Sync cmpSpec (fun _ => noFaults)
        { Filter := "", Value := "", NoDelete := false,
          Tables := ["ghost", "users"],
          SrcDbPath := "src.db", DstDbPath := "dst.db" }
        [⟨"users", [⟨Val.int 1, [Val.int 1]⟩]⟩, ⟨"orders", [⟨Val.int 7, [Val.int 7]⟩]⟩]
        [("users", []), ("orders", [(Val.int 9, [Val.int 9])])] =
      Sync cmpSpec (fun _ => noFaults)
        { Filter := "", Value := "", NoDelete := false, Tables := ["users"],
          SrcDbPath := "src.db", DstDbPath := "dst.db" }
        [⟨"users", [⟨Val.int 1, [Val.int 1]⟩]⟩, ⟨"orders", [⟨Val.int 7, [Val.int 7]⟩]⟩]
        [("users", []), ("orders", [(Val.int 9, [Val.int 9])])] :=
  ⟨(sync_allowlist_isolation cmpSpec (fun _ => noFaults)
      { Filter := "", Value := "", NoDelete := false, Tables := ["users"],
        SrcDbPath := "src.db", DstDbPath := "dst.db" }
      [⟨"users", [⟨Val.int 1, [Val.int 1]⟩]⟩, ⟨"orders", [⟨Val.int 7, [Val.int 7]⟩]⟩]
      [("users", []), ("orders", [(Val.int 9, [Val.int 9])])]
      (by decide)).1 "orders" (by decide),
   (sync_allowlist_isolation cmpSpec (fun _ => noFaults)
      { Filter := "", Value := "", NoDelete := false, Tables := ["users"],
        SrcDbPath := "src.db", DstDbPath := "dst.db" }
      [⟨"users", [⟨Val.int 1, [Val.int 1]⟩]⟩, ⟨"orders", [⟨Val.int 7, [Val.int 7]⟩]⟩]
      [("users", []), ("orders", [(Val.int 9, [Val.int 9])])]
      (by decide)).2 "ghost" (by decide)⟩

end RSLite

namespace RSLite

theorem filter_idem (p : Val × Row → Bool) (l : TableState) :
    (l.filter p).filter p = l.filter p := by
  induction l with
  | nil => rfl
  | cons x xs ih =>
    by_cases h : p x
    · simp [List.filter_cons, h, ih]
    · simp [List.filter_cons, h, ih]

theorem applyTable_idem (cmp : String → Val → String → Bool) (cfg : Config)
    (rows : List SourceRow) (st : TableState)
    (hnd : (rows.map (fun r => r.key)).Nodup) :
    applyTable cmp cfg rows (applyTable cmp cfg rows st) =
      applyTable cmp cfg rows st := by
  cases hsel : selectRows cmp cfg rows with
  | error e => simp [applyTable, hsel]
  | ok sel =>
    have hsub := selectRows_ok_sublist _ _ _ _ hsel
    have hnds : (sel.map (fun r => r.key)).Nodup := hnd.sublist (hsub.map _)
    have hkeys : ∀ r ∈ sel, r.key ∈ rows.map (fun r => r.key) :=
      fun r hr => List.mem_map.mpr ⟨r, hsub.subset hr, rfl⟩
    by_cases hndel : cfg.NoDelete = true
    · simp only [applyTable, hsel, hndel, if_true]
      exact upsertAll_eq_self sel _ (fun r hr => lookup_upsertAll_mem sel r hnds hr st)
    · have hndel' : cfg.NoDelete = false := by simpa using hndel
      by_cases hemp : (rows.map (fun r => r.key)).isEmpty = true
      · simp only [applyTable, hsel, hndel', Bool.false_eq_true, if_false, hemp,
          if_true]
        exact upsertAll_eq_self sel _ (fun r hr => lookup_upsertAll_mem sel r hnds hr st)
      · have hemp' : (rows.map (fun r => r.key)).isEmpty = false := by
          cases hx : (rows.map (fun r => r.key)).isEmpty
          · rfl
          · exact absurd hx hemp
        simp only [applyTable, hsel, hndel', Bool.false_eq_true, if_false, hemp']
        have hfix : upsertAll sel
            ((upsertAll sel st).filter
              (fun e => decide (e.1 ∈ rows.map (fun r => r.key)))) =
            (upsertAll sel st).filter
              (fun e => decide (e.1 ∈ rows.map (fun r => r.key))) := by
          apply upsertAll_eq_self
          intro r hr
          rw [lookup_filter (fun x => decide (x ∈ rows.map (fun r => r.key)))
            (upsertAll sel st) r.key]
          rw [decide_eq_true (hkeys r hr)]
          simp only [if_true]
          exact lookup_upsertAll_mem sel r hnds hr st
        rw [hfix, filter_idem]

theorem syncTable_noFaults_idem (cmp : String → Val → String → Bool)
    (cfg : Config) (rows : List SourceRow) (st st' : TableState)
    (hnd : (rows.map (fun r => r.key)).Nodup)
    (hok : syncTable cmp noFaults cfg rows (some st) = .ok st') :
    syncTable cmp noFaults cfg rows (some st') = .ok st' := by
  rw [syncTable_noFaults] at hok ⊢
  cases hsel : selectRows cmp cfg rows with
  | error e =>
    simp only [hsel] at hok
    simp at hok
  | ok sel =>
    simp only [hsel] at hok ⊢
    cases hok
    rw [applyTable_idem cmp cfg rows st hnd]

theorem syncTable_ok_isSome (cmp : String → Val → String → Bool) (f : Faults)
    (cfg : Config) (rows : List SourceRow) (st? : Option TableState)
    (st' : TableState) (h : syncTable cmp f cfg rows st? = .ok st') :
    st?.isSome := by
  cases st? with
  | some st => rfl
  | none =>
    unfold syncTable at h
    split at h
    · simp at h
    · simp at h

theorem syncTableInDB_ok_elim (cmp : String → Val → String → Bool) (f : Faults)
    (cfg : Config) (t : SourceTable) (db db' : TargetDB)
    (h : syncTableInDB cmp f cfg t db = .ok db') :
    ∃ st', syncTable cmp f cfg t.rows (lookupTable db t.name) = .ok st' ∧
      db' = updateTable t.name st' db := by
  unfold syncTableInDB at h
  cases hs : syncTable cmp f cfg t.rows (lookupTable db t.name) with
  | error e =>
    simp only [hs] at h
    simp at h
  | ok st' =>
    simp only [hs] at h
    cases h
    exact ⟨st', rfl, rfl⟩

theorem runSyncTables_noFaults_idem (cmp : String → Val → String → Bool)
    (cfg : Config) : ∀ (ts : List SourceTable),
    (ts.map (fun t => t.name)).Nodup →
    (∀ t ∈ ts, (t.rows.map (fun r => r.key)).Nodup) →
    ∀ db, runSyncTables cmp (fun _ => noFaults) cfg ts
        (runSyncTables cmp (fun _ => noFaults) cfg ts db).1 =
      runSyncTables cmp (fun _ => noFaults) cfg ts db := by
  intro ts
  induction ts with
  | nil => intro _ _ db; rfl
  | cons t rest ih =>
    intro hnames hkeys db
    simp only [List.map_cons, List.nodup_cons] at hnames
    obtain ⟨hnotin, hnames'⟩ := hnames
    have hkt : (t.rows.map (fun r => r.key)).Nodup :=
      hkeys t (List.mem_cons_self t rest)
    have hkr : ∀ t' ∈ rest, (t'.rows.map (fun r => r.key)).Nodup :=
      fun t' ht' => hkeys t' (List.mem_cons_of_mem t ht')
    cases hstep : syncTableInDB cmp noFaults cfg t db with
    | error e =>
      have hrun1 : runSyncTables cmp (fun _ => noFaults) cfg (t :: rest) db =
          (db, some (.table t.name e)) := by
        simp [runSyncTables, hstep]
      rw [hrun1]
      exact hrun1
    | ok db1 =>
      obtain ⟨st', hsync, hdb1⟩ := syncTableInDB_ok_elim _ _ _ _ _ _ hstep
      have hsome : (lookupTable db t.name).isSome :=
        syncTable_ok_isSome _ _ _ _ _ _ hsync
      obtain ⟨st, hlookdb⟩ := Option.isSome_iff_exists.mp hsome
      rw [hlookdb] at hsync
      have hlook1 : lookupTable db1 t.name = some st' := by
        rw [hdb1]
        exact lookupTable_update_self db t.name st' (by rw [hlookdb]; rfl)
      have hframe : lookupTable
          (runSyncTables cmp (fun _ => noFaults) cfg rest db1).1 t.name =
          lookupTable db1 t.name :=
        lookupTable_runSyncTables cmp (fun _ => noFaults) cfg rest t.name db1 hnotin
      have hlook2 : lookupTable
          (runSyncTables cmp (fun _ => noFaults) cfg rest db1).1 t.name =
          some st' := hframe.trans hlook1
      have hsync2 : syncTable cmp noFaults cfg t.rows (some st') = .ok st' :=
        syncTable_noFaults_idem cmp cfg t.rows st st' hkt hsync
      have hstep2 : syncTableInDB cmp noFaults cfg t
          (runSyncTables cmp (fun _ => noFaults) cfg rest db1).1 =
          .ok (runSyncTables cmp (fun _ => noFaults) cfg rest db1).1 := by
        unfold syncTableInDB
        rw [hlook2]
        simp only [hsync2]
        rw [updateTable_eq_of_lookup _ t.name st' hlook2]
      have hrun1 : runSyncTables cmp (fun _ => noFaults) cfg (t :: rest) db =
          runSyncTables cmp (fun _ => noFaults) cfg rest db1 := by
        simp [runSyncTables, hstep]
      rw [hrun1]
      have hrun2 : runSyncTables cmp (fun _ => noFaults) cfg (t :: rest)
          (runSyncTables cmp (fun _ => noFaults) cfg rest db1).1 =
          runSyncTables cmp (fun _ => noFaults) cfg rest
            (runSyncTables cmp (fun _ => noFaults) cfg rest db1).1 := by
        simp [runSyncTables, hstep2]
      rw [hrun2]
      exact ih hnames' hkr db1

/-- Claim C6: running `Sync` twice in succession with an identical
configuration and unchanged source database produces a target database
state identical to the one produced by running it once (stated in the
fault-free environment; source table names are distinct and each table's
primary-key values are distinct, as SQLite guarantees). -/
theorem sync_idempotent (cmp : String → Val → String → Bool) (cfg : Config)
    (src : List SourceTable) (db : TargetDB)
    (hnames : ((filterTables cfg src).map (fun t => t.name)).Nodup)
    (hkeys : ∀ t ∈ src, (t.rows.map (fun r => r.key)).Nodup) :
    Sync cmp (fun _ => noFaults) cfg src
        (Sync cmp (fun _ => noFaults) cfg src db).1 =
      Sync cmp (fun _ => noFaults) cfg src db := by
  unfold Sync
  apply runSyncTables_noFaults_idem cmp cfg (filterTables cfg src) hnames ?_ db
  intro t ht
  apply hkeys
  unfold filterTables at ht
  split at ht
  · exact ht
  · exact List.mem_of_mem_filter ht

/-- Witness for the C6 theorem: a two-table source synced twice into a
concrete target gives the same database as syncing once. -/
theorem c6_witness :
    Sync cmpSpec (fun _ => noFaults)
        { Filter := "", Value := "", NoDelete := false, Tables := [],
          SrcDbPath := "src.db", DstDbPath := "dst.db" }
        [⟨"users", [⟨Val.int 1, [Val.int 1]⟩]⟩, ⟨"orders", []⟩]
        (Sync cmpSpec (fun _ => noFaults)
          { Filter := "", Value := "", NoDelete := false, Tables := [],
            SrcDbPath := "src.db", DstDbPath := "dst.db" }
          [⟨"users", [⟨Val.int 1, [Val.int 1]⟩]⟩, ⟨"orders", []⟩]
          [("users", [(Val.int 5, [Val.int 5])]),
           ("orders", [(Val.int 9, [Val.int 9])])]).1 =
      Sync cmpSpec (fun _ => noFaults)
        { Filter := "", Value := "", NoDelete := false, Tables := [],
          SrcDbPath := "src.db", DstDbPath := "dst.db" }
        [⟨"users", [⟨Val.int 1, [Val.int 1]⟩]⟩, ⟨"orders", []⟩]
        [("users", [(Val.int 5, [Val.int 5])]),
         ("orders", [(Val.int 9, [Val.int 9])])] :=
  sync_idempotent cmpSpec
    { Filter := "", Value := "", NoDelete := false, Tables := [],
      SrcDbPath := "src.db", DstDbPath := "dst.db" }
    [⟨"users", [⟨Val.int 1, [Val.int 1]⟩]⟩, ⟨"orders", []⟩]
    [("users", [(Val.int 5, [Val.int 5])]),
     ("orders", [(Val.int 9, [Val.int 9])])]
    (by decide) (by decide)

end RSLite
